import Mathlib

/-!
Shallow embedding of the checkers (dame) rules engine of `src/server.js`,
together with theorems checking the specification's claims about it.

Conventions mirrored from the source:
* a cell is a signed integer: `0` empty, `1` White man, `2` White king,
  `-1` Black man, `-2` Black king;
* `turn`/`side`: `1` White, `-1` Black;
* the board is an 8×8 grid; out-of-bounds reads in the source either occur
  behind an `inBounds` guard or use optional chaining (`board[r]?.[c]`),
  whose `undefined` result is only ever used in a truthiness test where it
  behaves like `0`; accordingly `bget` returns `0` off the board.
-/

namespace Dame

/-- A board: 8×8 grid of signed-integer cells (`server.js` uses an array of
arrays; we use a total function on `Fin 8 × Fin 8`). -/
abbrev Board := Fin 8 → Fin 8 → Int

/-- `sign(piece)` from `server.js`: `piece === 0 ? 0 : piece > 0 ? 1 : -1`. -/
def sign (piece : Int) : Int := if piece = 0 then 0 else if piece > 0 then 1 else -1

/-- `isKing(piece)` from `server.js`: `Math.abs(piece) === 2`. -/
def isKing (piece : Int) : Prop := piece.natAbs = 2

instance (piece : Int) : Decidable (isKing piece) := by unfold isKing; infer_instance

/-- `inBounds(r, c)` from `server.js`: `r >= 0 && r < 8 && c >= 0 && c < 8`. -/
def inBounds (r c : Int) : Prop := 0 ≤ r ∧ r < 8 ∧ 0 ≤ c ∧ c < 8

instance (r c : Int) : Decidable (inBounds r c) := by unfold inBounds; infer_instance

/-- Board read at integer coordinates; `0` off the board (see module comment). -/
def bget (b : Board) (r c : Int) : Int :=
  if h : inBounds r c then
    b ⟨r.toNat, by obtain ⟨h1, h2, -, -⟩ := h; omega⟩
      ⟨c.toNat, by obtain ⟨-, -, h3, h4⟩ := h; omega⟩
  else 0

/-- Board write at integer coordinates (`newBoard[r][c] = v` in the source;
writes in the source only ever target in-bounds squares). -/
def bset (b : Board) (r c : Int) (v : Int) : Board :=
  fun i j => if (i : Int) = r ∧ (j : Int) = c then v else b i j

/-- `forwardDir(side)` from `server.js`: `side === 1 ? -1 : +1`. -/
def forwardDir (side : Int) : Int := if side = 1 then -1 else 1

/-- A square `{r, c}` with integer coordinates. -/
structure Square where
  r : Int
  c : Int
deriving DecidableEq, Repr

/-- A submitted move `{from, to}` (`from` is a Lean keyword, hence `fromSq`). -/
structure Move where
  fromSq : Square
  toSq : Square
deriving DecidableEq, Repr

/-- A capture `{from, over, to}` produced by the capture generators. -/
structure Capture where
  fromSq : Square
  overSq : Square
  toSq : Square
deriving DecidableEq, Repr

/-- `listManMoves(board, r, c, side)` from `server.js`. -/
def listManMoves (b : Board) (r c side : Int) : List Move :=
  let dr := forwardDir side
  ([-1, 1] : List Int).filterMap fun dc =>
    let r1 := r + dr
    let c1 := c + dc
    if inBounds r1 c1 ∧ bget b r1 c1 = 0 then
      some ⟨⟨r, c⟩, ⟨r1, c1⟩⟩
    else none

/-- `listManCaptures(board, r, c, side, allowBackwardCapture)` from `server.js`. -/
def listManCaptures (b : Board) (r c side : Int) (allowBackwardCapture : Bool) :
    List Capture :=
  let drs : List Int := if allowBackwardCapture then [-1, 1] else [forwardDir side]
  drs.flatMap fun dr =>
    ([-1, 1] : List Int).filterMap fun dc =>
      let r1 := r + dr
      let c1 := c + dc
      let r2 := r + 2 * dr
      let c2 := c + 2 * dc
      if ¬ inBounds r2 c2 then none
      else
        let mid := bget b r1 c1
        if mid ≠ 0 ∧ sign mid = -side ∧ bget b r2 c2 = 0 then
          some ⟨⟨r, c⟩, ⟨r1, c1⟩, ⟨r2, c2⟩⟩
        else none

/-- One diagonal ray of the flying king simple-move scan: from `(rr, cc)`
stepping by `(dr, dc)`, collect every empty in-bounds square until a piece or
the edge (the `while` loop of `listKingMoves`; fuel 8 covers any in-bounds
run of an 8×8 board). -/
def kingMoveRay (b : Board) (fr fc dr dc : Int) : Nat → Int → Int → List Move
  | 0, _, _ => []
  | fuel + 1, rr, cc =>
    if inBounds rr cc ∧ bget b rr cc = 0 then
      ⟨⟨fr, fc⟩, ⟨rr, cc⟩⟩ :: kingMoveRay b fr fc dr dc fuel (rr + dr) (cc + dc)
    else []

/-- `listKingMoves(board, r, c, flying)` from `server.js`. -/
def listKingMoves (b : Board) (r c : Int) (flying : Bool) : List Move :=
  if ¬ flying then
    ([-1, 1] : List Int).flatMap fun dr =>
      ([-1, 1] : List Int).filterMap fun dc =>
        let rr := r + dr
        let cc := c + dc
        if inBounds rr cc ∧ bget b rr cc = 0 then
          some ⟨⟨r, c⟩, ⟨rr, cc⟩⟩
        else none
  else
    ([-1, 1] : List Int).flatMap fun dr =>
      ([-1, 1] : List Int).flatMap fun dc =>
        kingMoveRay b r c dr dc 8 (r + dr) (c + dc)

/-- One diagonal ray of the flying king capture scan (the `while` loop of
`listKingCaptures`): while in bounds, an empty square yields a capture when an
enemy was already passed (`seenEnemy`), a friendly piece or a second piece
ends the ray, the first enemy is recorded and passed over. Fuel 8 covers any
in-bounds run of an 8×8 board. -/
def kingCapRay (b : Board) (fr fc side dr dc : Int) :
    Nat → Int → Int → Option Square → List Capture
  | 0, _, _, _ => []
  | fuel + 1, rr, cc, seenEnemy =>
    if inBounds rr cc then
      if bget b rr cc = 0 then
        (match seenEnemy with
          | some e => [⟨⟨fr, fc⟩, e, ⟨rr, cc⟩⟩]
          | none => []) ++
        kingCapRay b fr fc side dr dc fuel (rr + dr) (cc + dc) seenEnemy
      else if sign (bget b rr cc) = side then []
      else if sign (bget b rr cc) = -side then
        match seenEnemy with
        | some _ => []
        | none => kingCapRay b fr fc side dr dc fuel (rr + dr) (cc + dc) (some ⟨rr, cc⟩)
      else []
    else []

/-- `listKingCaptures(board, r, c, side, flyingCapture)` from `server.js`. -/
def listKingCaptures (b : Board) (r c side : Int) (flyingCapture : Bool) :
    List Capture :=
  if ¬ flyingCapture then
    ([-1, 1] : List Int).flatMap fun dr =>
      ([-1, 1] : List Int).filterMap fun dc =>
        let r1 := r + dr
        let c1 := c + dc
        let r2 := r + 2 * dr
        let c2 := c + 2 * dc
        if ¬ inBounds r2 c2 then none
        else
          let mid := bget b r1 c1
          if mid ≠ 0 ∧ sign mid = -side ∧ bget b r2 c2 = 0 then
            some ⟨⟨r, c⟩, ⟨r1, c1⟩, ⟨r2, c2⟩⟩
          else none
  else
    ([-1, 1] : List Int).flatMap fun dr =>
      ([-1, 1] : List Int).flatMap fun dc =>
        kingCapRay b r c side dr dc 8 (r + dr) (c + dc) none

/-- The rule-configuration record (after the coercions of `updateRules`, all
flags are booleans and `multiCapture` is a string). -/
structure Rules where
  mustCapture : Bool
  skipCapturePenaltyRemoveMoved : Bool
  multiCapture : String
  flyingKingMove : Bool
  flyingKingCapture : Bool
  menBackwardCapture : Bool
deriving DecidableEq, Repr

/-- `listCapturesForPiece(board, r, c, rules)` from `server.js`: empty for an
empty source square, else dispatch on king/man with `side = sign(piece)`. -/
def listCapturesForPiece (b : Board) (r c : Int) (rules : Rules) : List Capture :=
  if bget b r c = 0 then []
  else if isKing (bget b r c) then
    listKingCaptures b r c (sign (bget b r c)) rules.flyingKingCapture
  else listManCaptures b r c (sign (bget b r c)) rules.menBackwardCapture

/-- `listMovesForPiece(board, r, c, rules)` from `server.js`: empty for an
empty source square, else dispatch on king/man with `side = sign(piece)`. -/
def listMovesForPiece (b : Board) (r c : Int) (rules : Rules) : List Move :=
  if bget b r c = 0 then []
  else if isKing (bget b r c) then listKingMoves b r c rules.flyingKingMove
  else listManMoves b r c (sign (bget b r c))

/-- `anyCaptureAvailable(board, side, rules)` from `server.js`. -/
def anyCaptureAvailable (b : Board) (side : Int) (rules : Rules) : Bool :=
  (List.finRange 8).any fun r =>
    (List.finRange 8).any fun c =>
      sign (b r c) == side && !(listCapturesForPiece b r c rules).isEmpty

/-- The `lastMove` audit record `{from, to, captured, penaltyRemoved}`. -/
structure LastMove where
  fromSq : Square
  toSq : Square
  captured : Option Square
  penaltyRemoved : Bool
deriving DecidableEq, Repr

/-- The per-room game state `{board, turn, winner, lastMove, rules}`. -/
structure GameState where
  board : Board
  turn : Int
  winner : Int
  lastMove : Option LastMove
  rules : Rules
deriving DecidableEq

/-- The capture match of `applyMoveWithRules` (lines 208–209): recompute the
captures for the source square on the pre-move board and find the first whose
landing square equals `move.to`. -/
def capMatch (b : Board) (rules : Rules) (move : Move) : Option Capture :=
  (listCapturesForPiece b move.fromSq.r move.fromSq.c rules).find? fun x =>
    x.toSq.r == move.toSq.r && x.toSq.c == move.toSq.c

/-- The rank-determination step of `applyMoveWithRules` (lines 220–228): a man
landing on row 0 (White) or row 7 (Black) is placed as a king, otherwise the
piece is placed unchanged. -/
def placedPiece (piece : Int) (tr : Int) : Int :=
  if ¬ isKing piece then
    if sign piece = 1 ∧ tr = 0 then 2
    else if sign piece = -1 ∧ tr = 7 then -2
    else piece
  else piece

/-- The penalty condition of `applyMoveWithRules` (line 234):
`rules.mustCapture && rules.skipCapturePenaltyRemoveMoved &&
captureWasAvailable && !isCapture` (with `captureWasAvailable` computed on the
pre-move board). -/
def penaltyFires (state : GameState) (move : Move) : Bool :=
  state.rules.mustCapture && state.rules.skipCapturePenaltyRemoveMoved &&
    anyCaptureAvailable state.board
      (sign (bget state.board move.fromSq.r move.fromSq.c)) state.rules &&
    !(capMatch state.board state.rules move).isSome

/-- The board produced by `applyMoveWithRules` (lines 204–237), as the
sequence of writes of the source: clear the source square, clear the matched
capture's jumped square (if any), place the (possibly promoted) piece on the
destination, then clear the destination again when the skip-capture penalty
fires. -/
def boardAfter (state : GameState) (move : Move) : Board :=
  if penaltyFires state move then
    bset
      (bset
        (match capMatch state.board state.rules move with
          | some x =>
            bset (bset state.board move.fromSq.r move.fromSq.c 0) x.overSq.r x.overSq.c 0
          | none => bset state.board move.fromSq.r move.fromSq.c 0)
        move.toSq.r move.toSq.c
        (placedPiece (bget state.board move.fromSq.r move.fromSq.c) move.toSq.r))
      move.toSq.r move.toSq.c 0
  else
    bset
      (match capMatch state.board state.rules move with
        | some x =>
          bset (bset state.board move.fromSq.r move.fromSq.c 0) x.overSq.r x.overSq.c 0
        | none => bset state.board move.fromSq.r move.fromSq.c 0)
      move.toSq.r move.toSq.c
      (placedPiece (bget state.board move.fromSq.r move.fromSq.c) move.toSq.r)

/-- `applyMoveWithRules(state, move)` from `server.js` (lines 197–247),
assembled from `boardAfter`, `capMatch` and `penaltyFires`: the new board,
the `lastMove` audit record and the flipped turn; `rules` and `winner` are
carried over by the spread. -/
def applyMoveWithRules (state : GameState) (move : Move) : GameState :=
  { state with
    board := boardAfter state move
    lastMove := some ⟨move.fromSq, move.toSq,
      (capMatch state.board state.rules move).map Capture.overSq, penaltyFires state move⟩
    turn := -state.turn }

/-- `countPieces(board, side)` from `server.js`. -/
def countPieces (b : Board) (side : Int) : Nat :=
  ((List.finRange 8).flatMap fun r => (List.finRange 8).map fun c => b r c).countP
    fun p => sign p == side

/-- `hasAnyLegalMove(state, side)` from `server.js`: some square of `side` has
a capture or a simple move. -/
def hasAnyLegalMove (state : GameState) (side : Int) : Bool :=
  (List.finRange 8).any fun r =>
    (List.finRange 8).any fun c =>
      sign (state.board r c) == side &&
        (!(listCapturesForPiece state.board r c state.rules).isEmpty ||
         !(listMovesForPiece state.board r c state.rules).isEmpty)

/-- `checkWinner(state)` from `server.js`. -/
def checkWinner (state : GameState) : Int :=
  let white := countPieces state.board 1
  let black := countPieces state.board (-1)
  if white = 0 then -1
  else if black = 0 then 1
  else if ¬ hasAnyLegalMove state state.turn then -state.turn
  else 0

/-- The starting board of `createInitialState`: Black men on the dark squares
(`(r+c)` odd) of rows 0–2, White men on the dark squares of rows 5–7. -/
def initialBoard : Board := fun r c =>
  if ((r : Nat) + (c : Nat)) % 2 = 1 then
    if (r : Nat) < 3 then -1
    else if 5 ≤ (r : Nat) then 1
    else 0
  else 0

/-- The default rule configuration of `createInitialState`. -/
def defaultRules : Rules :=
  { mustCapture := true
    skipCapturePenaltyRemoveMoved := true
    multiCapture := "optional"
    flyingKingMove := true
    flyingKingCapture := true
    menBackwardCapture := false }

/-- `createInitialState()` from `server.js`. -/
def createInitialState : GameState :=
  { board := initialBoard
    turn := 1
    winner := 0
    lastMove := none
    rules := defaultRules }

/-- A JavaScript value as far as the rule-update coercions observe one:
`!!v` (truthiness) and strict equality against the string `"forced"`.
Numbers are modelled at integer precision, which is exact for both
observations. -/
inductive JSVal where
  | vBool : Bool → JSVal
  | vNum : Int → JSVal
  | vStr : String → JSVal
  | vNull : JSVal
  | vUndef : JSVal
  | vObj : JSVal
deriving DecidableEq, Repr

/-- JavaScript truthiness `!!v` for the values modelled by `JSVal`. -/
def truthy : JSVal → Bool
  | .vBool b => b
  | .vNum n => n ≠ 0
  | .vStr s => s ≠ ""
  | .vNull => false
  | .vUndef => false
  | .vObj => true

/-- The raw `rules` payload of an `updateRules` request: each field is an
arbitrary JavaScript value (a missing field reads as `vUndef`). -/
structure RulesPayload where
  mustCapture : JSVal
  skipCapturePenaltyRemoveMoved : JSVal
  multiCapture : JSVal
  flyingKingMove : JSVal
  flyingKingCapture : JSVal
  menBackwardCapture : JSVal
deriving DecidableEq, Repr

/-- The coercions of the `updateRules` handler (lines 315–322): every flag is
forced to a boolean with `!!`, and `multiCapture` becomes `"forced"` exactly
when the payload value is strictly equal to the string `"forced"`, otherwise
`"optional"`. -/
def normalizeRules (p : RulesPayload) : Rules :=
  { mustCapture := truthy p.mustCapture
    skipCapturePenaltyRemoveMoved := truthy p.skipCapturePenaltyRemoveMoved
    multiCapture := if p.multiCapture = .vStr "forced" then "forced" else "optional"
    flyingKingMove := truthy p.flyingKingMove
    flyingKingCapture := truthy p.flyingKingCapture
    menBackwardCapture := truthy p.menBackwardCapture }

/-- The state transition of the `updateRules` handler: the whole rules record
is replaced by the normalized payload; nothing else in the state changes. -/
def updateRules (state : GameState) (p : RulesPayload) : GameState :=
  { state with rules := normalizeRules p }

/-- The validation-and-apply core of the `makeMove` handler (lines 340–361).
`side` is the submitting player's side (`1` for white, `-1` for black; the
handler returns before this point for spectators). A coordinate is passed as
`some v` when the payload field passes `Number.isInteger` with value `v`, and
as `none` for any other payload value (missing, `null`, fractional, string,
…), which the handler rejects. `none` as result means the handler returned
without touching the state or emitting anything. -/
def makeMove (state : GameState) (side : Int) (fr fc tr tc : Option Int) :
    Option GameState :=
  if state.winner ≠ 0 then none
  else if state.turn ≠ side then none
  else
    match fr, fc, tr, tc with
    | some fr, some fc, some tr, some tc =>
      if ¬ (inBounds fr fc ∧ inBounds tr tc) then none
      else if sign (bget state.board fr fc) ≠ side then none
      else if bget state.board tr tc ≠ 0 then none
      else if ¬ (listCapturesForPiece state.board fr fc state.rules).any
            (fun x => x.toSq.r == tr && x.toSq.c == tc) ∧
          ¬ (listMovesForPiece state.board fr fc state.rules).any
            (fun x => x.toSq.r == tr && x.toSq.c == tc) then none
      else some (applyMoveWithRules state ⟨⟨fr, fc⟩, ⟨tr, tc⟩⟩)
    | _, _, _, _ => none

/-- The full `makeMove` handler as a state transformer plus an emission flag:
a rejected submission leaves the room state untouched and emits nothing
(`false`); an accepted one applies the move, runs `checkWinner` and stores a
nonzero result, and emits the new state (`true`). -/
def makeMoveHandler (state : GameState) (side : Int) (fr fc tr tc : Option Int) :
    GameState × Bool :=
  match makeMove state side fr fc tr tc with
  | none => (state, false)
  | some s =>
    let w := checkWinner s
    (if w ≠ 0 then { s with winner := w } else s, true)

/-- The acceptance contract of the `makeMove` handler, written out as the
conjunction of its checks (lines 340–357): the game is not over, it is the
submitter's turn, all four coordinates are integers in bounds, the source
square holds the submitter's piece, the destination square is empty, and the
destination is a capture landing or a simple-move target of the source
square. -/
def inContract (state : GameState) (side : Int) (fr fc tr tc : Option Int) : Bool :=
  match fr, fc, tr, tc with
  | some fr, some fc, some tr, some tc =>
    state.winner == 0 && state.turn == side &&
      decide (inBounds fr fc) && decide (inBounds tr tc) &&
      sign (bget state.board fr fc) == side && bget state.board tr tc == 0 &&
      ((listCapturesForPiece state.board fr fc state.rules).any
          (fun x => x.toSq.r == tr && x.toSq.c == tc) ||
       (listMovesForPiece state.board fr fc state.rules).any
          (fun x => x.toSq.r == tr && x.toSq.c == tc))
  | _, _, _, _ => false

/-- Well-formedness of a generated capture relative to the board it was
generated from: the landing square is empty and the jumped square holds an
enemy piece of `side`. -/
def capWF (b : Board) (side : Int) (cap : Capture) : Prop :=
  bget b cap.toSq.r cap.toSq.c = 0 ∧
  bget b cap.overSq.r cap.overSq.c ≠ 0 ∧
  sign (bget b cap.overSq.r cap.overSq.c) = -side

/-- Test fixture: the man-capture scenario of the specification: a White man
at (3,4), Black men at (2,3) and (4,5), otherwise empty. -/
def scenarioBoard : Board := fun r c =>
  if (r : Nat) = 3 ∧ (c : Nat) = 4 then 1
  else if (r : Nat) = 2 ∧ (c : Nat) = 3 then -1
  else if (r : Nat) = 4 ∧ (c : Nat) = 5 then -1
  else 0

/-- Test fixture: a White king at (7,0) and a Black man at (5,2) on an
otherwise empty board. -/
def kingBoard : Board := fun r c =>
  if (r : Nat) = 7 ∧ (c : Nat) = 0 then 2
  else if (r : Nat) = 5 ∧ (c : Nat) = 2 then -1
  else 0

/-- Test fixture: a game state with an empty board, White to move. -/
def emptyState : GameState :=
  { board := fun _ _ => 0
    turn := 1
    winner := 0
    lastMove := none
    rules := defaultRules }

/-- Test fixture: a White man at (5,2) facing a Black man at (4,3), White to
move under the default rules: a capture is available, so a non-capturing
White move incurs the skip-capture penalty. -/
def penaltyState : GameState :=
  { board := fun r c =>
      if (r : Nat) = 5 ∧ (c : Nat) = 2 then 1
      else if (r : Nat) = 4 ∧ (c : Nat) = 3 then -1
      else 0
    turn := 1
    winner := 0
    lastMove := none
    rules := defaultRules }

/-- Test fixture: a lone White man at (1,2), White to move: moving to (0,1)
promotes it. -/
def promoState : GameState :=
  { board := fun r c => if (r : Nat) = 1 ∧ (c : Nat) = 2 then 1 else 0
    turn := 1
    winner := 0
    lastMove := none
    rules := defaultRules }

/-! ## Helper lemmas -/

theorem bget_bset_self {r c : Int} (b : Board) (v : Int) (h : inBounds r c) :
    bget (bset b r c v) r c = v := by
  unfold bget bset
  rw [dif_pos h]
  rw [if_pos]
  refine ⟨?_, ?_⟩
  · show ((r.toNat : ℕ) : ℤ) = r
    exact Int.toNat_of_nonneg h.1
  · show ((c.toNat : ℕ) : ℤ) = c
    exact Int.toNat_of_nonneg h.2.2.1

theorem bget_bset_of_ne {r c r' c' : Int} (b : Board) (v : Int)
    (hne : ¬ (r' = r ∧ c' = c)) :
    bget (bset b r c v) r' c' = bget b r' c' := by
  unfold bget bset
  by_cases h : inBounds r' c'
  · rw [dif_pos h, dif_pos h, if_neg]
    intro hcon
    apply hne
    constructor
    · rw [← Int.toNat_of_nonneg h.1]
      exact hcon.1
    · rw [← Int.toNat_of_nonneg h.2.2.1]
      exact hcon.2
  · rw [dif_neg h, dif_neg h]

theorem listManCaptures_wf {b : Board} {r c side : Int} {back : Bool} {cap : Capture}
    (h : cap ∈ listManCaptures b r c side back) : capWF b side cap := by
  unfold listManCaptures at h
  simp only [List.mem_flatMap, List.mem_filterMap] at h
  obtain ⟨dr, hdr, dc, hdc, hcap⟩ := h
  split at hcap
  · exact absurd hcap (by simp)
  · split at hcap
    · rename_i hcond
      obtain ⟨hm, hs, ht⟩ := hcond
      cases hcap
      exact ⟨ht, hm, hs⟩
    · exact absurd hcap (by simp)

theorem kingCapRay_wf {b : Board} {fr fc side dr dc : Int} :
    ∀ (fuel : Nat) (rr cc : Int) (seen : Option Square),
      (∀ e, seen = some e →
        bget b e.r e.c ≠ 0 ∧ sign (bget b e.r e.c) = -side) →
      ∀ cap ∈ kingCapRay b fr fc side dr dc fuel rr cc seen, capWF b side cap
  | 0, rr, cc, seen, _, cap, hcap => by simp [kingCapRay] at hcap
  | fuel + 1, rr, cc, seen, hseen, cap, hcap => by
    unfold kingCapRay at hcap
    by_cases hin : inBounds rr cc
    · rw [if_pos hin] at hcap
      by_cases hcell : bget b rr cc = 0
      · rw [if_pos hcell, List.mem_append] at hcap
        rcases hcap with hcap | hcap
        · match seen, hseen, hcap with
          | some e, hseen, hcap =>
            simp only [List.mem_singleton] at hcap
            subst hcap
            exact ⟨hcell, (hseen e rfl).1, (hseen e rfl).2⟩
          | none, _, hcap => simp at hcap
        · exact kingCapRay_wf fuel (rr + dr) (cc + dc) seen hseen cap hcap
      · rw [if_neg hcell] at hcap
        by_cases hside : sign (bget b rr cc) = side
        · rw [if_pos hside] at hcap
          simp at hcap
        · rw [if_neg hside] at hcap
          by_cases henemy : sign (bget b rr cc) = -side
          · rw [if_pos henemy] at hcap
            match seen, hcap with
            | some e, hcap => simp at hcap
            | none, hcap =>
              refine kingCapRay_wf fuel (rr + dr) (cc + dc) (some ⟨rr, cc⟩) ?_ cap hcap
              intro e he
              cases he
              exact ⟨hcell, henemy⟩
          · rw [if_neg henemy] at hcap
            simp at hcap
    · rw [if_neg hin] at hcap
      simp at hcap

theorem listKingCaptures_wf {b : Board} {r c side : Int} {fly : Bool} {cap : Capture}
    (h : cap ∈ listKingCaptures b r c side fly) : capWF b side cap := by
  unfold listKingCaptures at h
  split at h
  · simp only [List.mem_flatMap, List.mem_filterMap] at h
    obtain ⟨dr, hdr, dc, hdc, hcap⟩ := h
    split at hcap
    · exact absurd hcap (by simp)
    · split at hcap
      · rename_i hcond
        obtain ⟨hm, hs, ht⟩ := hcond
        cases hcap
        exact ⟨ht, hm, hs⟩
      · exact absurd hcap (by simp)
  · simp only [List.mem_flatMap] at h
    obtain ⟨dr, hdr, dc, hdc, hcap⟩ := h
    exact kingCapRay_wf 8 (r + dr) (c + dc) none (by intro e he; cases he) cap hcap

theorem listCapturesForPiece_wf {b : Board} {r c : Int} {rules : Rules} {cap : Capture}
    (h : cap ∈ listCapturesForPiece b r c rules) :
    capWF b (sign (bget b r c)) cap := by
  unfold listCapturesForPiece at h
  split at h
  · simp at h
  · split at h
    · exact listKingCaptures_wf h
    · exact listManCaptures_wf h


theorem stepCast (x d : Int) (i : Nat) :
    x + d + (i : Int) * d = x + ((i + 1 : Nat) : Int) * d := by
  push_cast
  ring

theorem kingCapRay_some_mem {b : Board} {fr fc side dr dc : Int} :
    ∀ (fuel : Nat) (rr cc : Int) (e : Square) (cap : Capture),
      (cap ∈ kingCapRay b fr fc side dr dc fuel rr cc (some e) ↔
        ∃ k : Nat, k < fuel ∧
          (∀ i : Nat, i ≤ k →
            inBounds (rr + i * dr) (cc + i * dc) ∧
            bget b (rr + i * dr) (cc + i * dc) = 0) ∧
          cap = ⟨⟨fr, fc⟩, e, ⟨rr + k * dr, cc + k * dc⟩⟩)
  | 0, rr, cc, e, cap => by
    simp only [kingCapRay, List.not_mem_nil, false_iff]
    rintro ⟨k, hk, -, -⟩
    omega
  | fuel + 1, rr, cc, e, cap => by
    unfold kingCapRay
    by_cases hin : inBounds rr cc
    · rw [if_pos hin]
      by_cases hcell : bget b rr cc = 0
      · rw [if_pos hcell]
        simp only [List.cons_append, List.nil_append, List.mem_cons]
        rw [kingCapRay_some_mem fuel (rr + dr) (cc + dc) e cap]
        constructor
        · rintro (rfl | ⟨k, hk, hpath, rfl⟩)
          · refine ⟨0, by omega, ?_, by simp⟩
            intro i hi
            interval_cases i
            simpa using ⟨hin, hcell⟩
          · refine ⟨k + 1, by omega, ?_, ?_⟩
            · intro i hi
              match i with
              | 0 => simpa using ⟨hin, hcell⟩
              | i + 1 =>
                have := hpath i (by omega)
                rwa [stepCast rr dr i, stepCast cc dc i] at this
            · rw [stepCast rr dr k, stepCast cc dc k]
        · rintro ⟨k, hk, hpath, rfl⟩
          match k with
          | 0 => left; simp
          | k + 1 =>
            right
            refine ⟨k, by omega, ?_, ?_⟩
            · intro i hi
              rw [stepCast rr dr i, stepCast cc dc i]
              exact hpath (i + 1) (by omega)
            · rw [stepCast rr dr k, stepCast cc dc k]
      · rw [if_neg hcell]
        by_cases hside : sign (bget b rr cc) = side
        · rw [if_pos hside]
          simp only [List.not_mem_nil, false_iff]
          rintro ⟨k, -, hpath, -⟩
          have := hpath 0 (by omega)
          simp at this
          exact hcell this.2
        · rw [if_neg hside]
          by_cases henemy : sign (bget b rr cc) = -side
          · rw [if_pos henemy]
            simp only [List.not_mem_nil, false_iff]
            rintro ⟨k, -, hpath, -⟩
            have := hpath 0 (by omega)
            simp at this
            exact hcell this.2
          · rw [if_neg henemy]
            simp only [List.not_mem_nil, false_iff]
            rintro ⟨k, -, hpath, -⟩
            have := hpath 0 (by omega)
            simp at this
            exact hcell this.2
    · rw [if_neg hin]
      simp only [List.not_mem_nil, false_iff]
      rintro ⟨k, -, hpath, -⟩
      have := hpath 0 (by omega)
      simp at this
      exact hin this.1


theorem sign_eq_zero {x : Int} : sign x = 0 ↔ x = 0 := by
  unfold sign
  split
  · simp_all
  · split <;> simp_all

theorem kingCapRay_none_mem {b : Board} {fr fc side dr dc : Int} :
    ∀ (fuel : Nat) (rr cc : Int) (cap : Capture),
      (cap ∈ kingCapRay b fr fc side dr dc fuel rr cc none ↔
        ∃ j k : Nat, j < k ∧ k < fuel ∧
          (∀ i : Nat, i < j →
            inBounds (rr + i * dr) (cc + i * dc) ∧
            bget b (rr + i * dr) (cc + i * dc) = 0) ∧
          inBounds (rr + j * dr) (cc + j * dc) ∧
          bget b (rr + j * dr) (cc + j * dc) ≠ 0 ∧
          sign (bget b (rr + j * dr) (cc + j * dc)) = -side ∧
          (∀ i : Nat, j < i → i ≤ k →
            inBounds (rr + i * dr) (cc + i * dc) ∧
            bget b (rr + i * dr) (cc + i * dc) = 0) ∧
          cap = ⟨⟨fr, fc⟩, ⟨rr + j * dr, cc + j * dc⟩, ⟨rr + k * dr, cc + k * dc⟩⟩)
  | 0, rr, cc, cap => by
    simp only [kingCapRay, List.not_mem_nil, false_iff]
    rintro ⟨j, k, -, hk, -⟩
    omega
  | fuel + 1, rr, cc, cap => by
    unfold kingCapRay
    by_cases hin : inBounds rr cc
    · rw [if_pos hin]
      by_cases hcell : bget b rr cc = 0
      · rw [if_pos hcell]
        simp only [List.nil_append]
        rw [kingCapRay_none_mem fuel (rr + dr) (cc + dc) cap]
        constructor
        · rintro ⟨j, k, hjk, hk, hpre, hinj, hnz, hsgn, hpost, rfl⟩
          refine ⟨j + 1, k + 1, by omega, by omega, ?_, ?_, ?_, ?_, ?_, ?_⟩
          · intro i hi
            match i with
            | 0 => simpa using ⟨hin, hcell⟩
            | i + 1 =>
              have := hpre i (by omega)
              rwa [stepCast rr dr i, stepCast cc dc i] at this
          · rw [stepCast rr dr j, stepCast cc dc j] at hinj
            exact hinj
          · rwa [stepCast rr dr j, stepCast cc dc j] at hnz
          · rwa [stepCast rr dr j, stepCast cc dc j] at hsgn
          · intro i hi1 hi2
            match i with
            | i + 1 =>
              have := hpost i (by omega) (by omega)
              rwa [stepCast rr dr i, stepCast cc dc i] at this
          · rw [stepCast rr dr j, stepCast cc dc j, stepCast rr dr k, stepCast cc dc k]
        · rintro ⟨j, k, hjk, hk, hpre, hinj, hnz, hsgn, hpost, rfl⟩
          match j, k with
          | 0, _ =>
            exfalso
            apply hnz
            simpa using hcell
          | j + 1, k + 1 =>
            refine ⟨j, k, by omega, by omega, ?_, ?_, ?_, ?_, ?_, ?_⟩
            · intro i hi
              rw [stepCast rr dr i, stepCast cc dc i]
              exact hpre (i + 1) (by omega)
            · rw [stepCast rr dr j, stepCast cc dc j]
              exact hinj
            · rw [stepCast rr dr j, stepCast cc dc j]
              exact hnz
            · rw [stepCast rr dr j, stepCast cc dc j]
              exact hsgn
            · intro i hi1 hi2
              rw [stepCast rr dr i, stepCast cc dc i]
              exact hpost (i + 1) (by omega) (by omega)
            · rw [stepCast rr dr j, stepCast cc dc j, stepCast rr dr k, stepCast cc dc k]
      · rw [if_neg hcell]
        by_cases hside : sign (bget b rr cc) = side
        · rw [if_pos hside]
          simp only [List.not_mem_nil, false_iff]
          rintro ⟨j, k, hjk, -, hpre, -, hnz, hsgn, -, -⟩
          match j with
          | 0 =>
            simp only [Nat.cast_zero, zero_mul, add_zero] at hnz hsgn
            rw [hside] at hsgn
            have hz : side = 0 := by omega
            have h0 : sign (bget b rr cc) = 0 := by rw [hside, hz]
            exact hnz (sign_eq_zero.mp h0)
          | j + 1 =>
            have := hpre 0 (by omega)
            simp only [Nat.cast_zero, zero_mul, add_zero] at this
            exact hcell this.2
        · rw [if_neg hside]
          by_cases henemy : sign (bget b rr cc) = -side
          · rw [if_pos henemy]
            rw [kingCapRay_some_mem fuel (rr + dr) (cc + dc) ⟨rr, cc⟩ cap]
            constructor
            · rintro ⟨k, hk, hpath, rfl⟩
              refine ⟨0, k + 1, by omega, by omega, by omega, ?_, ?_, ?_, ?_, ?_⟩
              · simpa using hin
              · simpa using hcell
              · simpa using henemy
              · intro i hi1 hi2
                match i with
                | i + 1 =>
                  have := hpath i (by omega)
                  rwa [stepCast rr dr i, stepCast cc dc i] at this
              · rw [stepCast rr dr k, stepCast cc dc k]
                simp
            · rintro ⟨j, k, hjk, hk, hpre, hinj, hnz, hsgn, hpost, rfl⟩
              match j, k with
              | 0, k + 1 =>
                refine ⟨k, by omega, ?_, ?_⟩
                · intro i hi
                  rw [stepCast rr dr i, stepCast cc dc i]
                  exact hpost (i + 1) (by omega) (by omega)
                · rw [stepCast rr dr k, stepCast cc dc k]
                  simp
              | j + 1, _ =>
                exfalso
                have := hpre 0 (by omega)
                simp only [Nat.cast_zero, zero_mul, add_zero] at this
                exact hcell this.2
          · rw [if_neg henemy]
            simp only [List.not_mem_nil, false_iff]
            rintro ⟨j, k, hjk, -, hpre, -, -, hsgn, -, -⟩
            match j with
            | 0 =>
              simp only [Nat.cast_zero, zero_mul, add_zero] at hsgn
              exact henemy hsgn
            | j + 1 =>
              have := hpre 0 (by omega)
              simp only [Nat.cast_zero, zero_mul, add_zero] at this
              exact hcell this.2
    · rw [if_neg hin]
      simp only [List.not_mem_nil, false_iff]
      rintro ⟨j, k, hjk, -, hpre, hinj, -⟩
      match j with
      | 0 =>
        simp only [Nat.cast_zero, zero_mul, add_zero] at hinj
        exact hin hinj
      | j + 1 =>
        have := hpre 0 (by omega)
        simp only [Nat.cast_zero, zero_mul, add_zero] at this
        exact hin this.1


theorem ray_inBounds {r c dr dc : Int} (hdr : dr = -1 ∨ dr = 1) (hdc : dc = -1 ∨ dc = 1)
    (hb : inBounds r c) {k : Nat} (hk : inBounds (r + k * dr) (c + k * dc)) :
    (∀ i : Nat, i ≤ k → inBounds (r + i * dr) (c + i * dc)) ∧ k ≤ 7 := by
  obtain ⟨h1, h2, h3, h4⟩ := hb
  obtain ⟨h5, h6, h7, h8⟩ := hk
  constructor
  · intro i hi
    rcases hdr with rfl | rfl <;> rcases hdc with rfl | rfl <;>
      exact ⟨by omega, by omega, by omega, by omega⟩
  · rcases hdr with rfl | rfl <;> omega

theorem listKingCaptures_flying_mem (b : Board) (r c side : Int) (cap : Capture) :
    cap ∈ listKingCaptures b r c side true ↔
      ∃ dr dc : Int, (dr = -1 ∨ dr = 1) ∧ (dc = -1 ∨ dc = 1) ∧
        cap ∈ kingCapRay b r c side dr dc 8 (r + dr) (c + dc) none := by
  unfold listKingCaptures
  simp only [not_true, if_false, List.mem_flatMap, List.mem_cons, List.mem_singleton,
    List.not_mem_nil, or_false]
  constructor
  · rintro ⟨dr, hdr, dc, hdc, hmem⟩
    exact ⟨dr, dc, hdr, hdc, hmem⟩
  · rintro ⟨dr, dc, hdr, hdc, hmem⟩
    exact ⟨dr, hdr, dc, hdc, hmem⟩


/-- C3: when `flyingKingCapture` is true, `listKingCaptures` returns exactly,
for each of the 4 diagonal rays, one capture per empty landing square lying
beyond the first piece encountered on the ray whenever that piece is an enemy
of `side`, with no second piece between the enemy and the landing square. -/
theorem spec_c3_flying_king_capture_enumeration (b : Board) (r c side : Int) (cap : Capture)
    (hb : inBounds r c) :
    cap ∈ listKingCaptures b r c side true ↔
      ∃ dr dc : Int, (dr = -1 ∨ dr = 1) ∧ (dc = -1 ∨ dc = 1) ∧
        ∃ j k : Nat, 1 ≤ j ∧ j < k ∧
          inBounds (r + k * dr) (c + k * dc) ∧
          (∀ i : Nat, 1 ≤ i → i < j → bget b (r + i * dr) (c + i * dc) = 0) ∧
          bget b (r + j * dr) (c + j * dc) ≠ 0 ∧
          sign (bget b (r + j * dr) (c + j * dc)) = -side ∧
          (∀ i : Nat, j < i → i ≤ k → bget b (r + i * dr) (c + i * dc) = 0) ∧
          cap = ⟨⟨r, c⟩, ⟨r + j * dr, c + j * dc⟩, ⟨r + k * dr, c + k * dc⟩⟩ := by
  rw [listKingCaptures_flying_mem]
  constructor
  · rintro ⟨dr, dc, hdr, hdc, hmem⟩
    rw [kingCapRay_none_mem] at hmem
    obtain ⟨j', k', hjk, hk, hpre, hinj, hnz, hsgn, hpost, rfl⟩ := hmem
    refine ⟨dr, dc, hdr, hdc, j' + 1, k' + 1, by omega, by omega, ?_, ?_, ?_, ?_, ?_, ?_⟩
    · rw [← stepCast r dr k', ← stepCast c dc k']
      exact (hpost k' (by omega) (le_refl _)).1
    · intro i hi1 hij
      match i, hi1 with
      | i + 1, _ =>
        rw [← stepCast r dr i, ← stepCast c dc i]
        exact (hpre i (by omega)).2
    · rw [← stepCast r dr j', ← stepCast c dc j']
      exact hnz
    · rw [← stepCast r dr j', ← stepCast c dc j']
      exact hsgn
    · intro i hi1 hi2
      match i, hi1 with
      | i + 1, _ =>
        rw [← stepCast r dr i, ← stepCast c dc i]
        exact (hpost i (by omega) (by omega)).2
    · rw [← stepCast r dr j', ← stepCast c dc j', ← stepCast r dr k', ← stepCast c dc k']
  · rintro ⟨dr, dc, hdr, hdc, j, k, hj1, hjk, hkin, hpre, hnz, hsgn, hpost, rfl⟩
    refine ⟨dr, dc, hdr, hdc, ?_⟩
    rw [kingCapRay_none_mem]
    obtain ⟨hbnd, hk7⟩ := ray_inBounds hdr hdc hb hkin
    match j, k, hj1, hjk with
    | j' + 1, k' + 1, _, _ =>
      refine ⟨j', k', by omega, by omega, ?_, ?_, ?_, ?_, ?_, ?_⟩
      · intro i hi
        rw [stepCast r dr i, stepCast c dc i]
        exact ⟨hbnd (i + 1) (by omega), hpre (i + 1) (by omega) (by omega)⟩
      · rw [stepCast r dr j', stepCast c dc j']
        exact hbnd (j' + 1) (by omega)
      · rw [stepCast r dr j', stepCast c dc j']
        exact hnz
      · rw [stepCast r dr j', stepCast c dc j']
        exact hsgn
      · intro i hi1 hi2
        rw [stepCast r dr i, stepCast c dc i]
        exact ⟨hbnd (i + 1) (by omega), hpost (i + 1) (by omega) (by omega)⟩
      · rw [stepCast r dr j', stepCast c dc j', stepCast r dr k', stepCast c dc k']


theorem hasAnyLegalMove_iff (state : GameState) (side : Int) :
    hasAnyLegalMove state side = true ↔
      ∃ r c : Fin 8, sign (state.board r c) = side ∧
        (listCapturesForPiece state.board r c state.rules ≠ [] ∨
         listMovesForPiece state.board r c state.rules ≠ []) := by
  unfold hasAnyLegalMove
  simp [List.any_eq_true, List.mem_finRange, Bool.and_eq_true, Bool.or_eq_true,
    List.isEmpty_iff, beq_iff_eq]

/-- C5: every capture returned by the capture generators — man or king, short
or flying variant — has an empty landing square and a jumped square holding
an enemy piece of the moving side (never an occupied target, never an empty
or same-side jumped square); for `listCapturesForPiece` the moving side is
the sign of the source piece. -/
theorem spec_c5_captures_wellformed :
    (∀ (b : Board) (r c side : Int) (back : Bool) (cap : Capture),
        cap ∈ listManCaptures b r c side back →
          bget b cap.toSq.r cap.toSq.c = 0 ∧
          bget b cap.overSq.r cap.overSq.c ≠ 0 ∧
          sign (bget b cap.overSq.r cap.overSq.c) = -side) ∧
    (∀ (b : Board) (r c side : Int) (fly : Bool) (cap : Capture),
        cap ∈ listKingCaptures b r c side fly →
          bget b cap.toSq.r cap.toSq.c = 0 ∧
          bget b cap.overSq.r cap.overSq.c ≠ 0 ∧
          sign (bget b cap.overSq.r cap.overSq.c) = -side) ∧
    (∀ (b : Board) (r c : Int) (rules : Rules) (cap : Capture),
        cap ∈ listCapturesForPiece b r c rules →
          bget b cap.toSq.r cap.toSq.c = 0 ∧
          bget b cap.overSq.r cap.overSq.c ≠ 0 ∧
          sign (bget b cap.overSq.r cap.overSq.c) = -sign (bget b r c)) :=
  ⟨fun _ _ _ _ _ _ h => listManCaptures_wf h,
   fun _ _ _ _ _ _ h => listKingCaptures_wf h,
   fun _ _ _ _ _ h => listCapturesForPiece_wf h⟩

/-- Witness for C5 at the man-capture fixture: the forward capture of the
White man at (3,4) over the Black man at (2,3) landing at (1,2). -/
theorem spec_c5_captures_wellformed_witness :
    ((⟨⟨3, 4⟩, ⟨2, 3⟩, ⟨1, 2⟩⟩ : Capture) ∈ listManCaptures scenarioBoard 3 4 1 false) ∧
      (bget scenarioBoard 1 2 = 0 ∧ bget scenarioBoard 2 3 ≠ 0 ∧
        sign (bget scenarioBoard 2 3) = -1) :=
  ⟨by decide,
   spec_c5_captures_wellformed.1 scenarioBoard 3 4 1 false ⟨⟨3, 4⟩, ⟨2, 3⟩, ⟨1, 2⟩⟩ (by decide)⟩

/-- C4 counterexample: on a board with zero Black pieces (and zero White
pieces), `checkWinner` returns Black (`-1`), not White (`1`) as the claim
states, because the source checks `white === 0` first. -/
theorem spec_c4_counterexample :
    countPieces emptyState.board (-1) = 0 ∧ checkWinner emptyState ≠ 1 := by
  constructor
  · decide
  · decide

/-- C4 amended: `checkWinner` returns Black whenever White has zero pieces
(even if Black also has none), White when White has pieces and Black has
none, the opponent of the side to move when both sides have pieces but the
side to move has no capture and no simple move on any of its squares, and 0
(game continues) otherwise. -/
theorem spec_c4_check_winner (state : GameState) :
    (countPieces state.board 1 = 0 → checkWinner state = -1) ∧
    (countPieces state.board 1 ≠ 0 → countPieces state.board (-1) = 0 →
      checkWinner state = 1) ∧
    (countPieces state.board 1 ≠ 0 → countPieces state.board (-1) ≠ 0 →
      (∀ r c : Fin 8, sign (state.board r c) = state.turn →
        listCapturesForPiece state.board r c state.rules = [] ∧
        listMovesForPiece state.board r c state.rules = []) →
      checkWinner state = -state.turn) ∧
    (countPieces state.board 1 ≠ 0 → countPieces state.board (-1) ≠ 0 →
      (∃ r c : Fin 8, sign (state.board r c) = state.turn ∧
        (listCapturesForPiece state.board r c state.rules ≠ [] ∨
         listMovesForPiece state.board r c state.rules ≠ [])) →
      checkWinner state = 0) := by
  refine ⟨?_, ?_, ?_, ?_⟩
  · intro hw
    unfold checkWinner
    rw [if_pos hw]
  · intro hw hb
    unfold checkWinner
    rw [if_neg hw, if_pos hb]
  · intro hw hb hstale
    unfold checkWinner
    rw [if_neg hw, if_neg hb, if_pos]
    intro htrue
    obtain ⟨r, c, hs, hne⟩ := (hasAnyLegalMove_iff state state.turn).mp htrue
    obtain ⟨hc, hm⟩ := hstale r c hs
    rcases hne with hne | hne
    · exact hne hc
    · exact hne hm
  · intro hw hb hmove
    unfold checkWinner
    rw [if_neg hw, if_neg hb, if_neg]
    intro hnot
    exact hnot ((hasAnyLegalMove_iff state state.turn).mpr hmove)

/-- Witness for C4 (amended) at the empty-board fixture: White has zero
pieces, so Black wins. -/
theorem spec_c4_check_winner_witness :
    countPieces emptyState.board 1 = 0 ∧ checkWinner emptyState = -1 :=
  ⟨by decide, (spec_c4_check_winner emptyState).1 (by decide)⟩

/-- C10: every rules record ever stored — the initial one and the result of
any `updateRules` payload — has boolean flags obtained by `!!`-coercion of
the payload and `multiCapture` equal to `"optional"` or `"forced"` (exactly
`"forced"` when the payload field is strictly the string `"forced"`), and
`updateRules` replaces the record as a whole, independently of the previous
rules. -/
theorem spec_c10_rules_wellformed :
    (createInitialState.rules.multiCapture = "optional" ∧
      (createInitialState.rules.multiCapture = "optional" ∨
        createInitialState.rules.multiCapture = "forced")) ∧
    (∀ p : RulesPayload,
      ((normalizeRules p).multiCapture = "optional" ∨
        (normalizeRules p).multiCapture = "forced") ∧
      ((normalizeRules p).multiCapture = "forced" ↔ p.multiCapture = .vStr "forced") ∧
      (normalizeRules p).mustCapture = truthy p.mustCapture ∧
      (normalizeRules p).skipCapturePenaltyRemoveMoved =
        truthy p.skipCapturePenaltyRemoveMoved ∧
      (normalizeRules p).flyingKingMove = truthy p.flyingKingMove ∧
      (normalizeRules p).flyingKingCapture = truthy p.flyingKingCapture ∧
      (normalizeRules p).menBackwardCapture = truthy p.menBackwardCapture) ∧
    (∀ (s : GameState) (p : RulesPayload),
      (updateRules s p).rules = normalizeRules p ∧
      (updateRules s p).board = s.board ∧ (updateRules s p).turn = s.turn ∧
      (updateRules s p).winner = s.winner ∧ (updateRules s p).lastMove = s.lastMove) ∧
    (∀ (s t : GameState) (p : RulesPayload),
      (updateRules s p).rules = (updateRules t p).rules) := by
  refine ⟨⟨rfl, Or.inl rfl⟩, ?_, ?_, ?_⟩
  · intro p
    refine ⟨?_, ?_, rfl, rfl, rfl, rfl, rfl⟩
    · unfold normalizeRules
      by_cases h : p.multiCapture = .vStr "forced"
      · right
        simp [h]
      · left
        simp [h]
    · unfold normalizeRules
      by_cases h : p.multiCapture = .vStr "forced"
      · simp [h]
      · simp [h]
  · intro s p
    exact ⟨rfl, rfl, rfl, rfl, rfl⟩
  · intro s t p
    rfl


/-- Witness for C3 at the king fixture: the White king at (7,0) captures the
Black man at (5,2) landing at (3,4) (ray dr = -1, dc = 1, j = 2, k = 4). -/
theorem spec_c3_flying_king_capture_enumeration_witness :
    inBounds 7 0 ∧
      (∃ dr dc : Int, (dr = -1 ∨ dr = 1) ∧ (dc = -1 ∨ dc = 1) ∧
        ∃ j k : Nat, 1 ≤ j ∧ j < k ∧
          inBounds (7 + k * dr) (0 + k * dc) ∧
          (∀ i : Nat, 1 ≤ i → i < j → bget kingBoard (7 + i * dr) (0 + i * dc) = 0) ∧
          bget kingBoard (7 + j * dr) (0 + j * dc) ≠ 0 ∧
          sign (bget kingBoard (7 + j * dr) (0 + j * dc)) = -1 ∧
          (∀ i : Nat, j < i → i ≤ k → bget kingBoard (7 + i * dr) (0 + i * dc) = 0) ∧
          (⟨⟨7, 0⟩, ⟨5, 2⟩, ⟨3, 4⟩⟩ : Capture) =
            ⟨⟨7, 0⟩, ⟨7 + j * dr, 0 + j * dc⟩, ⟨7 + k * dr, 0 + k * dc⟩⟩) :=
  ⟨by decide,
    (spec_c3_flying_king_capture_enumeration kingBoard 7 0 1 ⟨⟨7, 0⟩, ⟨5, 2⟩, ⟨3, 4⟩⟩
        (by decide)).mp (by decide)⟩

theorem makeMove_eq_some {state : GameState} {side : Int} {fr fc tr tc : Option Int}
    {s : GameState} (h : makeMove state side fr fc tr tc = some s) :
    ∃ fr' fc' tr' tc' : Int,
      fr = some fr' ∧ fc = some fc' ∧ tr = some tr' ∧ tc = some tc' ∧
      state.winner = 0 ∧ state.turn = side ∧ inBounds fr' fc' ∧ inBounds tr' tc' ∧
      sign (bget state.board fr' fc') = side ∧ bget state.board tr' tc' = 0 ∧
      ((listCapturesForPiece state.board fr' fc' state.rules).any
          (fun x => x.toSq.r == tr' && x.toSq.c == tc') = true ∨
        (listMovesForPiece state.board fr' fc' state.rules).any
          (fun x => x.toSq.r == tr' && x.toSq.c == tc') = true) ∧
      s = applyMoveWithRules state ⟨⟨fr', fc'⟩, ⟨tr', tc'⟩⟩ := by
  unfold makeMove at h
  split at h
  · exact absurd h (by simp)
  split at h
  · exact absurd h (by simp)
  rename_i hw ht
  rw [not_ne_iff] at hw ht
  split at h
  · rename_i fr' fc' tr' tc'
    split at h
    · exact absurd h (by simp)
    rename_i hbnd
    rw [not_not] at hbnd
    split at h
    · exact absurd h (by simp)
    rename_i hside
    rw [not_ne_iff] at hside
    split at h
    · exact absurd h (by simp)
    rename_i hdst
    rw [not_ne_iff] at hdst
    split at h
    · exact absurd h (by simp)
    rename_i hleg
    rw [not_and_or, not_not, not_not] at hleg
    exact ⟨fr', fc', tr', tc', rfl, rfl, rfl, rfl, hw, ht, hbnd.1, hbnd.2,
      hside, hdst, hleg, (Option.some_injective _ h).symm⟩
  · exact Option.noConfusion h


theorem bget_oob {r c : Int} (b : Board) (h : ¬ inBounds r c) : bget b r c = 0 := by
  unfold bget
  rw [dif_neg h]

theorem penaltyFires_iff (state : GameState) (move : Move) :
    penaltyFires state move = true ↔
      state.rules.mustCapture = true ∧
      state.rules.skipCapturePenaltyRemoveMoved = true ∧
      anyCaptureAvailable state.board
        (sign (bget state.board move.fromSq.r move.fromSq.c)) state.rules = true ∧
      capMatch state.board state.rules move = none := by
  unfold penaltyFires
  rcases h : capMatch state.board state.rules move with _ | cm <;>
    simp [h, Bool.and_eq_true, and_assoc]

theorem capMatch_some_facts {state : GameState} {move : Move} {cm : Capture}
    (h : capMatch state.board state.rules move = some cm) :
    bget state.board move.toSq.r move.toSq.c = 0 ∧
    bget state.board cm.overSq.r cm.overSq.c ≠ 0 ∧
    sign (bget state.board cm.overSq.r cm.overSq.c) =
      -sign (bget state.board move.fromSq.r move.fromSq.c) ∧
    ¬(cm.overSq.r = move.toSq.r ∧ cm.overSq.c = move.toSq.c) := by
  have hmem := List.mem_of_find?_eq_some h
  have hwf := listCapturesForPiece_wf hmem
  have hpred := List.find?_some h
  rw [Bool.and_eq_true, beq_iff_eq, beq_iff_eq] at hpred
  obtain ⟨hr, hc⟩ := hpred
  have hto0 : bget state.board move.toSq.r move.toSq.c = 0 := by
    rw [← hr, ← hc]
    exact hwf.1
  refine ⟨hto0, hwf.2.1, hwf.2.2, ?_⟩
  rintro ⟨h1, h2⟩
  apply hwf.2.1
  rw [h1, h2, hto0]

theorem capMatch_over_ne_from {state : GameState} {move : Move} {cm : Capture}
    (h : capMatch state.board state.rules move = some cm)
    (hp : sign (bget state.board move.fromSq.r move.fromSq.c) ≠ 0) :
    ¬(cm.overSq.r = move.fromSq.r ∧ cm.overSq.c = move.fromSq.c) := by
  rintro ⟨h1, h2⟩
  have hwf := listCapturesForPiece_wf (List.mem_of_find?_eq_some h)
  have hx := hwf.2.2
  rw [h1, h2] at hx
  omega

theorem bget_boardAfter_to (state : GameState) (move : Move)
    (htob : inBounds move.toSq.r move.toSq.c) :
    bget (boardAfter state move) move.toSq.r move.toSq.c =
      if penaltyFires state move then 0
      else placedPiece (bget state.board move.fromSq.r move.fromSq.c) move.toSq.r := by
  unfold boardAfter
  split
  · exact bget_bset_self _ _ htob
  · exact bget_bset_self _ _ htob

theorem bget_boardAfter_from (state : GameState) (move : Move)
    (hft : ¬(move.fromSq.r = move.toSq.r ∧ move.fromSq.c = move.toSq.c))
    (hp : sign (bget state.board move.fromSq.r move.fromSq.c) ≠ 0) :
    bget (boardAfter state move) move.fromSq.r move.fromSq.c = 0 := by
  by_cases hin : inBounds move.fromSq.r move.fromSq.c
  · unfold boardAfter
    have hstep :
        bget (match capMatch state.board state.rules move with
          | some x =>
            bset (bset state.board move.fromSq.r move.fromSq.c 0) x.overSq.r x.overSq.c 0
          | none => bset state.board move.fromSq.r move.fromSq.c 0)
          move.fromSq.r move.fromSq.c = 0 := by
      rcases hcm : capMatch state.board state.rules move with _ | cm
      · exact bget_bset_self _ _ hin
      · have hne := capMatch_over_ne_from hcm hp
        rw [bget_bset_of_ne]
        · exact bget_bset_self _ _ hin
        · intro hco
          exact hne ⟨hco.1.symm, hco.2.symm⟩
    split
    · rw [bget_bset_of_ne _ _ hft, bget_bset_of_ne _ _ hft]
      exact hstep
    · rw [bget_bset_of_ne _ _ hft]
      exact hstep
  · exact bget_oob _ hin

theorem bget_boardAfter_over {state : GameState} {move : Move} {cm : Capture}
    (hcm : capMatch state.board state.rules move = some cm) :
    bget (boardAfter state move) cm.overSq.r cm.overSq.c = 0 := by
  by_cases hin : inBounds cm.overSq.r cm.overSq.c
  · have hne := (capMatch_some_facts hcm).2.2.2
    unfold boardAfter
    have hstep :
        bget (match capMatch state.board state.rules move with
          | some x =>
            bset (bset state.board move.fromSq.r move.fromSq.c 0) x.overSq.r x.overSq.c 0
          | none => bset state.board move.fromSq.r move.fromSq.c 0)
          cm.overSq.r cm.overSq.c = 0 := by
      rw [hcm]
      exact bget_bset_self _ _ hin
    split
    · rw [bget_bset_of_ne _ _ hne, bget_bset_of_ne _ _ hne]
      exact hstep
    · rw [bget_bset_of_ne _ _ hne]
      exact hstep
  · exact bget_oob _ hin

theorem bget_boardAfter_other (state : GameState) (move : Move) (r c : Int)
    (hf : ¬(r = move.fromSq.r ∧ c = move.fromSq.c))
    (ht : ¬(r = move.toSq.r ∧ c = move.toSq.c))
    (ho : ∀ cm, capMatch state.board state.rules move = some cm →
      ¬(r = cm.overSq.r ∧ c = cm.overSq.c)) :
    bget (boardAfter state move) r c = bget state.board r c := by
  unfold boardAfter
  have hstep :
      bget (match capMatch state.board state.rules move with
        | some x =>
          bset (bset state.board move.fromSq.r move.fromSq.c 0) x.overSq.r x.overSq.c 0
        | none => bset state.board move.fromSq.r move.fromSq.c 0)
        r c = bget state.board r c := by
    rcases hcm : capMatch state.board state.rules move with _ | cm
    · exact bget_bset_of_ne _ _ hf
    · rw [bget_bset_of_ne _ _ (ho cm hcm)]
      exact bget_bset_of_ne _ _ hf
  split
  · rw [bget_bset_of_ne _ _ ht, bget_bset_of_ne _ _ ht]
    exact hstep
  · rw [bget_bset_of_ne _ _ ht]
    exact hstep

theorem makeMoveHandler_none {state : GameState} {side : Int} {fr fc tr tc : Option Int}
    (hn : makeMove state side fr fc tr tc = none) :
    makeMoveHandler state side fr fc tr tc = (state, false) := by
  unfold makeMoveHandler
  rw [hn]

theorem makeMoveHandler_some {state : GameState} {side : Int} {fr fc tr tc : Option Int}
    {s : GameState} (hs : makeMove state side fr fc tr tc = some s) :
    makeMoveHandler state side fr fc tr tc =
      (if checkWinner s ≠ 0 then { s with winner := checkWinner s } else s, true) := by
  unfold makeMoveHandler
  rw [hs]


/-- C1: under an accepted move (source piece of the mover's side, empty
in-bounds destination), when `mustCapture` and `skipCapturePenaltyRemoveMoved`
hold, a capture was available to the moving side on the pre-move board, and
the submitted move is not itself a capture, `applyMoveWithRules` removes the
just-placed piece: the destination is empty afterwards, `penaltyRemoved` is
recorded, and the turn still flips; if any of these conditions fails, the
placed piece remains at the destination and `penaltyRemoved` is false. -/
theorem spec_c1_skip_capture_penalty (state : GameState) (move : Move) (side : Int)
    (hside : side = 1 ∨ side = -1)
    (hpiece : sign (bget state.board move.fromSq.r move.fromSq.c) = side)
    (hto : bget state.board move.toSq.r move.toSq.c = 0)
    (htob : inBounds move.toSq.r move.toSq.c) :
    ((state.rules.mustCapture = true ∧ state.rules.skipCapturePenaltyRemoveMoved = true ∧
        anyCaptureAvailable state.board side state.rules = true ∧
        capMatch state.board state.rules move = none) →
      (bget (applyMoveWithRules state move).board move.toSq.r move.toSq.c = 0 ∧
        (∃ lm, (applyMoveWithRules state move).lastMove = some lm ∧
          lm.penaltyRemoved = true) ∧
        (applyMoveWithRules state move).turn = -state.turn)) ∧
    (¬(state.rules.mustCapture = true ∧ state.rules.skipCapturePenaltyRemoveMoved = true ∧
        anyCaptureAvailable state.board side state.rules = true ∧
        capMatch state.board state.rules move = none) →
      (bget (applyMoveWithRules state move).board move.toSq.r move.toSq.c =
          placedPiece (bget state.board move.fromSq.r move.fromSq.c) move.toSq.r ∧
        placedPiece (bget state.board move.fromSq.r move.fromSq.c) move.toSq.r ≠ 0 ∧
        (∃ lm, (applyMoveWithRules state move).lastMove = some lm ∧
          lm.penaltyRemoved = false) ∧
        (applyMoveWithRules state move).turn = -state.turn)) := by
  have hpz : sign (bget state.board move.fromSq.r move.fromSq.c) ≠ 0 := by
    rw [hpiece]
    rcases hside with rfl | rfl <;> omega
  have hpnz : bget state.board move.fromSq.r move.fromSq.c ≠ 0 := by
    intro h0
    apply hpz
    rw [h0]
    rfl
  constructor
  · rintro ⟨hmc, hsk, hav, hnone⟩
    have hp : penaltyFires state move = true := by
      rw [penaltyFires_iff]
      rw [hpiece]
      exact ⟨hmc, hsk, hav, hnone⟩
    refine ⟨?_, ⟨_, rfl, hp⟩, rfl⟩
    show bget (boardAfter state move) move.toSq.r move.toSq.c = 0
    rw [bget_boardAfter_to state move htob, if_pos hp]
  · intro hnc
    have hp : penaltyFires state move = false := by
      rcases hb : penaltyFires state move with _ | _
      · rfl
      · exfalso
        apply hnc
        have := (penaltyFires_iff state move).mp hb
        rw [hpiece] at this
        exact this
    have hplaced : placedPiece (bget state.board move.fromSq.r move.fromSq.c) move.toSq.r ≠ 0 := by
      unfold placedPiece
      split
      · split
        · omega
        · split
          · omega
          · exact hpnz
      · exact hpnz
    refine ⟨?_, hplaced, ⟨_, rfl, hp⟩, rfl⟩
    show bget (boardAfter state move) move.toSq.r move.toSq.c = _
    rw [bget_boardAfter_to state move htob, hp]
    rfl

/-- Witness for C1 at the penalty fixture: White at (5,2) has a capture over
(4,3) available but plays the simple move to (4,1); the moved man is removed,
the penalty is recorded, and the turn flips. -/
theorem spec_c1_skip_capture_penalty_witness :
    bget (applyMoveWithRules penaltyState ⟨⟨5, 2⟩, ⟨4, 1⟩⟩).board 4 1 = 0 ∧
    (∃ lm, (applyMoveWithRules penaltyState ⟨⟨5, 2⟩, ⟨4, 1⟩⟩).lastMove = some lm ∧
      lm.penaltyRemoved = true) ∧
    (applyMoveWithRules penaltyState ⟨⟨5, 2⟩, ⟨4, 1⟩⟩).turn = -penaltyState.turn :=
  (spec_c1_skip_capture_penalty penaltyState ⟨⟨5, 2⟩, ⟨4, 1⟩⟩ 1 (Or.inl rfl)
    (by decide) (by decide) (by decide)).1 ⟨rfl, rfl, by decide, by decide⟩

/-- C2: `applyMoveWithRules` re-derives capture status itself by recomputing
the captures of the source square on the pre-move board: the move is treated
as a capture (a jumped square is recorded) exactly when `move.to` equals the
landing square of one of those captures, and then the matched capture's
jumped enemy square is cleared on the returned board. -/
theorem spec_c2_capture_rederivation (state : GameState) (move : Move) :
    ((applyMoveWithRules state move).lastMove =
      some ⟨move.fromSq, move.toSq,
        (capMatch state.board state.rules move).map Capture.overSq,
        penaltyFires state move⟩) ∧
    ((capMatch state.board state.rules move).isSome = true ↔
      ∃ cap ∈ listCapturesForPiece state.board move.fromSq.r move.fromSq.c state.rules,
        cap.toSq.r = move.toSq.r ∧ cap.toSq.c = move.toSq.c) ∧
    (∀ cm, capMatch state.board state.rules move = some cm →
      bget (applyMoveWithRules state move).board cm.overSq.r cm.overSq.c = 0) := by
  refine ⟨rfl, ?_, ?_⟩
  · unfold capMatch
    rw [List.find?_isSome]
    constructor
    · rintro ⟨cap, hmem, hpred⟩
      rw [Bool.and_eq_true, beq_iff_eq, beq_iff_eq] at hpred
      exact ⟨cap, hmem, hpred⟩
    · rintro ⟨cap, hmem, h1, h2⟩
      refine ⟨cap, hmem, ?_⟩
      rw [Bool.and_eq_true, beq_iff_eq, beq_iff_eq]
      exact ⟨h1, h2⟩
  · intro cm hcm
    show bget (boardAfter state move) cm.overSq.r cm.overSq.c = 0
    exact bget_boardAfter_over hcm

/-- Witness for C2 at the penalty fixture: the capture move (5,2)→(3,4) is
matched to the recomputed capture over (4,3), and (4,3) is cleared. -/
theorem spec_c2_capture_rederivation_witness :
    capMatch penaltyState.board penaltyState.rules ⟨⟨5, 2⟩, ⟨3, 4⟩⟩ =
      some ⟨⟨5, 2⟩, ⟨4, 3⟩, ⟨3, 4⟩⟩ ∧
    bget (applyMoveWithRules penaltyState ⟨⟨5, 2⟩, ⟨3, 4⟩⟩).board 4 3 = 0 :=
  ⟨by decide,
   (spec_c2_capture_rederivation penaltyState ⟨⟨5, 2⟩, ⟨3, 4⟩⟩).2.2
     ⟨⟨5, 2⟩, ⟨4, 3⟩, ⟨3, 4⟩⟩ (by decide)⟩

/-- C7: promotion is unconditional on the far row and idempotent: a man
landing on row 0 (White) or row 7 (Black) is placed as a king, a king landing
anywhere (including the far row) stays exactly the same king, placement does
not depend on whether the move captures (a matched capture never triggers the
penalty), and the destination square holds the placed piece whenever the
penalty does not fire. -/
theorem spec_c7_promotion (state : GameState) (move : Move)
    (htob : inBounds move.toSq.r move.toSq.c) :
    (¬ isKing (bget state.board move.fromSq.r move.fromSq.c) →
      ((sign (bget state.board move.fromSq.r move.fromSq.c) = 1 → move.toSq.r = 0 →
        placedPiece (bget state.board move.fromSq.r move.fromSq.c) move.toSq.r = 2) ∧
       (sign (bget state.board move.fromSq.r move.fromSq.c) = -1 → move.toSq.r = 7 →
        placedPiece (bget state.board move.fromSq.r move.fromSq.c) move.toSq.r = -2))) ∧
    (isKing (bget state.board move.fromSq.r move.fromSq.c) →
      placedPiece (bget state.board move.fromSq.r move.fromSq.c) move.toSq.r =
        bget state.board move.fromSq.r move.fromSq.c) ∧
    (∀ cm, capMatch state.board state.rules move = some cm →
      penaltyFires state move = false) ∧
    (penaltyFires state move = false →
      bget (applyMoveWithRules state move).board move.toSq.r move.toSq.c =
        placedPiece (bget state.board move.fromSq.r move.fromSq.c) move.toSq.r) := by
  refine ⟨?_, ?_, ?_, ?_⟩
  · intro hman
    constructor
    · intro hw h0
      unfold placedPiece
      rw [if_pos hman, if_pos ⟨hw, h0⟩]
    · intro hb h7
      unfold placedPiece
      rw [if_pos hman, if_neg, if_pos ⟨hb, h7⟩]
      rintro ⟨hs, -⟩
      omega
  · intro hking
    unfold placedPiece
    rw [if_neg]
    exact fun hc => hc hking
  · intro cm hcm
    unfold penaltyFires
    rw [hcm]
    simp
  · intro hp
    show bget (boardAfter state move) move.toSq.r move.toSq.c = _
    rw [bget_boardAfter_to state move htob, hp]
    rfl

/-- Witness for C7 at the promotion fixture: the White man at (1,2) moving to
(0,1) is placed as a White king, and the destination holds it. -/
theorem spec_c7_promotion_witness :
    placedPiece (bget promoState.board 1 2) 0 = 2 ∧
    bget (applyMoveWithRules promoState ⟨⟨1, 2⟩, ⟨0, 1⟩⟩).board 0 1 =
      placedPiece (bget promoState.board 1 2) 0 :=
  ⟨((spec_c7_promotion promoState ⟨⟨1, 2⟩, ⟨0, 1⟩⟩ (by decide)).1 (by decide)).1
      (by decide) rfl,
   (spec_c7_promotion promoState ⟨⟨1, 2⟩, ⟨0, 1⟩⟩ (by decide)).2.2.2 (by decide)⟩


/-- C6: the turn flips exactly once per accepted move, capture or not —
`applyMoveWithRules` always returns `-state.turn` — and a rejected or no-op
submission leaves the state (hence the turn) untouched and emits nothing. -/
theorem spec_c6_turn_alternation (state : GameState) (move : Move) (side : Int)
    (fr fc tr tc : Option Int) :
    (applyMoveWithRules state move).turn = -state.turn ∧
    (∀ s, makeMove state side fr fc tr tc = some s →
      s.turn = -state.turn ∧
      (makeMoveHandler state side fr fc tr tc).1.turn = -state.turn) ∧
    (makeMove state side fr fc tr tc = none →
      makeMoveHandler state side fr fc tr tc = (state, false)) := by
  refine ⟨rfl, ?_, ?_⟩
  · intro s hs
    have h1 : s.turn = -state.turn := by
      obtain ⟨fr', fc', tr', tc', -, -, -, -, -, -, -, -, -, -, -, hs'⟩ := makeMove_eq_some hs
      rw [hs']
      rfl
    refine ⟨h1, ?_⟩
    rw [makeMoveHandler_some hs]
    split
    · exact h1
    · exact h1
  · intro hn
    exact makeMoveHandler_none hn

/-- Witness for C6: on the initial state the accepted move (5,0)→(4,1) flips
the turn to Black, and the rejected submission from the empty square (0,0)
leaves the state untouched with nothing emitted. -/
theorem spec_c6_turn_alternation_witness :
    (applyMoveWithRules createInitialState ⟨⟨5, 0⟩, ⟨4, 1⟩⟩).turn =
      -createInitialState.turn ∧
    (makeMoveHandler createInitialState 1 (some 5) (some 0) (some 4) (some 1)).1.turn =
      -createInitialState.turn ∧
    makeMoveHandler createInitialState 1 (some 0) (some 0) (some 1) (some 1) =
      (createInitialState, false) :=
  ⟨(spec_c6_turn_alternation createInitialState ⟨⟨5, 0⟩, ⟨4, 1⟩⟩ 1
      (some 5) (some 0) (some 4) (some 1)).1,
   ((spec_c6_turn_alternation createInitialState ⟨⟨5, 0⟩, ⟨4, 1⟩⟩ 1
      (some 5) (some 0) (some 4) (some 1)).2.1
      (applyMoveWithRules createInitialState ⟨⟨5, 0⟩, ⟨4, 1⟩⟩) (by decide)).2,
   (spec_c6_turn_alternation createInitialState ⟨⟨5, 0⟩, ⟨4, 1⟩⟩ 1
      (some 0) (some 0) (some 1) (some 1)).2.2 (by decide)⟩

/-- C8: every out-of-contract submission — non-integer or out-of-bounds
coordinates, empty or opponent-owned source, occupied destination, a target
outside the legal capture and simple-move sets, out-of-turn submission, or a
submission after the game is decided — is rejected silently: the state is
unchanged and nothing is emitted. -/
theorem spec_c8_reject_silently (state : GameState) (side : Int)
    (fr fc tr tc : Option Int)
    (h : inContract state side fr fc tr tc = false) :
    makeMove state side fr fc tr tc = none ∧
    makeMoveHandler state side fr fc tr tc = (state, false) := by
  have hnone : makeMove state side fr fc tr tc = none := by
    rcases hm : makeMove state side fr fc tr tc with _ | s
    · rfl
    · exfalso
      obtain ⟨fr', fc', tr', tc', rfl, rfl, rfl, rfl, hw, ht, hb1, hb2, hs, hd, hleg, -⟩ :=
        makeMove_eq_some hm
      have hc : inContract state side (some fr') (some fc') (some tr') (some tc') = true := by
        simp only [inContract]
        rw [hw, ht, hs, hd, decide_eq_true hb1, decide_eq_true hb2]
        rcases hleg with hleg | hleg <;> simp [hleg]
      rw [h] at hc
      exact Bool.noConfusion hc
  exact ⟨hnone, makeMoveHandler_none hnone⟩

/-- Witness for C8: on the initial state, White submitting (5,0)→(6,1) (an
occupied destination) is out of contract and is rejected with no state
change and no emission. -/
theorem spec_c8_reject_silently_witness :
    inContract createInitialState 1 (some 5) (some 0) (some 6) (some 1) = false ∧
    makeMove createInitialState 1 (some 5) (some 0) (some 6) (some 1) = none ∧
    makeMoveHandler createInitialState 1 (some 5) (some 0) (some 6) (some 1) =
      (createInitialState, false) :=
  ⟨by decide,
   spec_c8_reject_silently createInitialState 1 (some 5) (some 0) (some 6) (some 1)
     (by decide)⟩

/-- C9: the frame property of the applier under an accepted move: the
returned state keeps `rules` and `winner`, flips `turn`, records `lastMove`,
and its board differs from the input board only at the cleared source square,
the cleared jumped square of the matched capture (if any), and the
destination square (the placed piece, or empty after a penalty removal);
every other cell is unchanged. -/
theorem spec_c9_frame (state : GameState) (move : Move) (side : Int)
    (hside : side = 1 ∨ side = -1)
    (hpiece : sign (bget state.board move.fromSq.r move.fromSq.c) = side)
    (hto : bget state.board move.toSq.r move.toSq.c = 0)
    (htob : inBounds move.toSq.r move.toSq.c) :
    (applyMoveWithRules state move).rules = state.rules ∧
    (applyMoveWithRules state move).winner = state.winner ∧
    (applyMoveWithRules state move).turn = -state.turn ∧
    (applyMoveWithRules state move).lastMove =
      some ⟨move.fromSq, move.toSq,
        (capMatch state.board state.rules move).map Capture.overSq,
        penaltyFires state move⟩ ∧
    bget (applyMoveWithRules state move).board move.fromSq.r move.fromSq.c = 0 ∧
    (∀ cm, capMatch state.board state.rules move = some cm →
      bget (applyMoveWithRules state move).board cm.overSq.r cm.overSq.c = 0) ∧
    (bget (applyMoveWithRules state move).board move.toSq.r move.toSq.c =
      if penaltyFires state move then 0
      else placedPiece (bget state.board move.fromSq.r move.fromSq.c) move.toSq.r) ∧
    (∀ r c : Int,
      ¬(r = move.fromSq.r ∧ c = move.fromSq.c) →
      ¬(r = move.toSq.r ∧ c = move.toSq.c) →
      (∀ cm, capMatch state.board state.rules move = some cm →
        ¬(r = cm.overSq.r ∧ c = cm.overSq.c)) →
      bget (applyMoveWithRules state move).board r c = bget state.board r c) := by
  have hzero : sign (0 : Int) = 0 := rfl
  have hft : ¬(move.fromSq.r = move.toSq.r ∧ move.fromSq.c = move.toSq.c) := by
    rintro ⟨h1, h2⟩
    rw [h1, h2, hto, hzero] at hpiece
    rcases hside with rfl | rfl <;> omega
  have hpz : sign (bget state.board move.fromSq.r move.fromSq.c) ≠ 0 := by
    rw [hpiece]
    rcases hside with rfl | rfl <;> omega
  refine ⟨rfl, rfl, rfl, rfl, ?_, ?_, ?_, ?_⟩
  · exact bget_boardAfter_from state move hft hpz
  · intro cm hcm
    exact bget_boardAfter_over hcm
  · exact bget_boardAfter_to state move htob
  · intro r c hf ht' ho
    exact bget_boardAfter_other state move r c hf ht' ho

/-- Witness for C9 at the penalty fixture with the capture move (5,2)→(3,4):
rules are preserved and the untouched cell (0,7) keeps its value. -/
theorem spec_c9_frame_witness :
    (applyMoveWithRules penaltyState ⟨⟨5, 2⟩, ⟨3, 4⟩⟩).rules = penaltyState.rules ∧
    bget (applyMoveWithRules penaltyState ⟨⟨5, 2⟩, ⟨3, 4⟩⟩).board 0 7 =
      bget penaltyState.board 0 7 :=
  ⟨(spec_c9_frame penaltyState ⟨⟨5, 2⟩, ⟨3, 4⟩⟩ 1 (Or.inl rfl) (by decide) (by decide)
      (by decide)).1,
   (spec_c9_frame penaltyState ⟨⟨5, 2⟩, ⟨3, 4⟩⟩ 1 (Or.inl rfl) (by decide) (by decide)
      (by decide)).2.2.2.2.2.2.2 0 7 (by decide) (by decide)
     (by
       intro cm hcm
       rw [show capMatch penaltyState.board penaltyState.rules ⟨⟨5, 2⟩, ⟨3, 4⟩⟩ =
           some ⟨⟨5, 2⟩, ⟨4, 3⟩, ⟨3, 4⟩⟩ from by decide] at hcm
       cases hcm
       decide)⟩

end Dame
